import Mathlib

/-!
# Verification of the Trading-backend streaming-signal core

Shallow embedding of `index.js` (candle history, EMA/RSI indicators,
crossover signal decision, subscriber catch-up, HTTP bulk-overwrite)
over exact rational arithmetic, together with theorems settling the
specification claims.
-/

set_option maxRecDepth 8000

namespace TradingBackend

/-- JS `Math.round`: round half toward positive infinity. -/
def roundJS (x : ℚ) : ℤ := ⌊x + 1/2⌋

/-- JS `+(y.toFixed(2))`: round to two decimals, ties toward the larger value. -/
def round2 (x : ℚ) : ℚ := (⌊x * 100 + 1/2⌋ : ℚ) / 100

/-- JS numeric coercion of a possibly-`null` value (`null` compares as `0`). -/
def jsNum (o : Option ℚ) : ℚ := o.getD 0

/-- Inner loop of `ema`: `prev = values[i] * k + prev * (1 - k)`. -/
def emaGo (k : ℚ) (prev : ℚ) : List ℚ → List (Option ℚ)
  | [] => []
  | v :: rest =>
    let next := v * k + prev * (1 - k)
    some next :: emaGo k next rest

/-- `ema(values, length)` from `index.js`: seed `out[0] = values[0]`,
multiplier `k = 2 / (length + 1)`, then the recursive update. -/
def ema (values : List ℚ) (length : ℕ) : List (Option ℚ) :=
  match values with
  | [] => []
  | v0 :: rest =>
    let k : ℚ := 2 / (length + 1)
    some v0 :: emaGo k v0 rest

/-- First differences: `deltas[i] = values[i+1] - values[i]`. -/
def deltasOf : List ℚ → List ℚ
  | [] => []
  | [_] => []
  | a :: b :: rest => (b - a) :: deltasOf (b :: rest)

/-- The divisor guard `avgLoss || 1e-8` from `index.js`. -/
def lossDen (avgLoss : ℚ) : ℚ := if avgLoss = 0 then 1e-8 else avgLoss

/-- `100 - 100 / (1 + avgGain / (avgLoss || 1e-8))`. -/
def rsiValue (avgGain avgLoss : ℚ) : ℚ := 100 - 100 / (1 + avgGain / lossDen avgLoss)

/-- Wilder smoothing loop of `rsi`, one output entry per remaining delta. -/
def rsiLoop (period : ℚ) (avgGain avgLoss : ℚ) : List ℚ → List (Option ℚ)
  | [] => []
  | d :: rest =>
    let g := if d > 0 then d else 0
    let l := if d < 0 then -d else 0
    let aG := (avgGain * (period - 1) + g) / period
    let aL := (avgLoss * (period - 1) + l) / period
    some (rsiValue aG aL) :: rsiLoop period aG aL rest

/-- `rsi(values, period)` from `index.js`: all-`null` when
`values.length <= period`; otherwise seed averages over the first
`period` deltas, first defined entry at index `period`, then the
smoothing loop. -/
def rsi (values : List ℚ) (period : ℕ) : List (Option ℚ) :=
  if values.length ≤ period then List.replicate values.length none
  else
    let deltas := deltasOf values
    let gain := ((deltas.take period).map (fun d => if d ≥ 0 then d else 0)).sum
    let loss := ((deltas.take period).map (fun d => if d ≥ 0 then 0 else -d)).sum
    let avgGain := gain / (period : ℚ)
    let avgLoss := loss / (period : ℚ)
    List.replicate period none ++
      (some (rsiValue avgGain avgLoss) :: rsiLoop period avgGain avgLoss (deltas.drop period))

/-- A closed candle as decoded from a kline frame. -/
structure Candle where
  t : ℤ
  op : ℚ
  hi : ℚ
  lo : ℚ
  close : ℚ
  volume : ℚ
  isFinal : Bool
deriving DecidableEq

/-- The object returned by `analyzeAndSignal`; fields absent on the JS
object are `none`. -/
structure SignalOut where
  signal : String
  reason : String
  entry : Option ℚ := none
  stopLoss : Option ℚ := none
  takeProfit : Option ℚ := none
  confidence : Option ℚ := none
  price : Option ℚ := none
  rsi : Option ℤ := none
deriving DecidableEq

/-- `i = closes.length - 1`, the index of the newest close. -/
def lastIdx (closes : List ℚ) : ℕ := closes.length - 1

/-- `crossedUp = emaS[prev] <= emaL[prev] && emaS[i] > emaL[i]`. -/
def crossedUpAt (closes : List ℚ) : Bool :=
  let i := lastIdx closes
  decide (jsNum ((ema closes 9).getD (i - 1) none) ≤ jsNum ((ema closes 21).getD (i - 1) none)) &&
  decide (jsNum ((ema closes 9).getD i none) > jsNum ((ema closes 21).getD i none))

/-- `crossedDown = emaS[prev] >= emaL[prev] && emaS[i] < emaL[i]`. -/
def crossedDownAt (closes : List ℚ) : Bool :=
  let i := lastIdx closes
  decide (jsNum ((ema closes 9).getD (i - 1) none) ≥ jsNum ((ema closes 21).getD (i - 1) none)) &&
  decide (jsNum ((ema closes 9).getD i none) < jsNum ((ema closes 21).getD i none))

/-- `r = Math.round(rsiArr[i] ?? 50)`. -/
def rAt (closes : List ℚ) : ℤ :=
  roundJS (((rsi closes 14).getD (lastIdx closes) none).getD 50)

/-- `price = closes[i]`, the newest close. -/
def priceAt (closes : List ℚ) : ℚ := closes.getD (lastIdx closes) 0

/-- `Math.abs(emaS[i] - emaL[i]) || 1`. -/
def gapAt (closes : List ℚ) : ℚ :=
  let i := lastIdx closes
  let d := |jsNum ((ema closes 9).getD i none) - jsNum ((ema closes 21).getD i none)|
  if d = 0 then 1 else d

/-- `analyzeAndSignal(ohlcArr)` from `index.js`. -/
def analyzeAndSignal (ohlcArr : List Candle) : SignalOut :=
  let closes := ohlcArr.map Candle.close
  let i := lastIdx closes
  if i ≤ 21 then { signal := "HOLD", reason := "not enough data" }
  else
    let r := rAt closes
    let price := priceAt closes
    if crossedUpAt closes && decide (r < 45) then
      let entry := price
      let gap := gapAt closes
      { signal := "BUY"
        reason := "EMA up cross + RSI " ++ toString r
        entry := some entry
        stopLoss := some (round2 (entry - 0.5 * gap))
        takeProfit := some (round2 (entry + 1.5 * gap))
        confidence := some (round2 (min 0.95 (0.6 + ((45 : ℚ) - (r : ℚ)) / 100)))
        price := some price
        rsi := some r }
    else if crossedDownAt closes && decide (r > 65) then
      let entry := price
      let gap := gapAt closes
      { signal := "SELL"
        reason := "EMA down cross + RSI " ++ toString r
        entry := some entry
        stopLoss := some (round2 (entry + 0.5 * gap))
        takeProfit := some (round2 (entry - 1.5 * gap))
        confidence := some (round2 (min 0.95 (0.6 + ((r : ℚ) - (65 : ℚ)) / 100)))
        price := some price
        rsi := some r }
    else
      { signal := "HOLD"
        reason := "No crossover (RSI " ++ toString r ++ ")"
        price := some price
        rsi := some r }

/-- The per-closed-candle history update from the message handler:
`ohlc.push(candle); if (ohlc.length > 500) ohlc.shift()`. -/
def appendCandle (h : List α) (c : α) : List α :=
  let h2 := h ++ [c]
  if h2.length > 500 then h2.drop 1 else h2

/-- The request body of the bulk-overwrite route: either a JSON array of
candles or anything that is not an array. -/
inductive PushBody (α : Type)
  | notArray
  | array (l : List α)
deriving DecidableEq

/-- The response of the bulk-overwrite route. -/
inductive PushResp
  | ok (count : ℕ)
  | badRequest (reason : String)
deriving DecidableEq

/-- `app.post("/push-ohlc")`: reject a non-array body with a 400 error and
leave the history unchanged; otherwise replace it by `arr.slice(-500)`
(the newest 500 entries). -/
def pushOhlcRoute (ohlc : List α) (body : PushBody α) : PushResp × List α :=
  match body with
  | .notArray => (.badRequest "send array", ohlc)
  | .array arr =>
    let newOhlc := arr.drop (arr.length - 500)
    (.ok newOhlc.length, newOhlc)

/-- The value stored in `lastSignal` on a closed candle:
`{ ...result, symbol: SYMBOL, ts: Date.now() }`. -/
structure StoredSignal where
  result : SignalOut
  symbol : String
  ts : ℤ
deriving DecidableEq

/-- An envelope pushed to a subscriber socket. -/
inductive WsMsg
  | price (t : ℤ) (close : ℚ)
  | signal (s : StoredSignal)
  | status (text : String)
deriving DecidableEq

/-- The `wssServer.on("connection")` handler: send `lastSignal` first when
one exists, then the connection-status envelope. -/
def onConnection (lastSignal : Option StoredSignal) : List WsMsg :=
  (match lastSignal with
   | some s => [WsMsg.signal s]
   | none => []) ++ [WsMsg.status "connected"]

/-- Everything a subscriber receives: the catch-up messages sent at
connection time followed by whatever the hub publishes afterwards. -/
def subscriberTrace (lastSignal : Option StoredSignal) (later : List WsMsg) : List WsMsg :=
  onConnection lastSignal ++ later

/-- The mutable module state of `index.js`: the `ohlc` array and the
`lastSignal` singleton. -/
structure ServerState where
  ohlc : List Candle
  lastSignal : Option StoredSignal
deriving DecidableEq

/-- `let ohlc = []; let lastSignal = null;`. -/
def initState : ServerState := { ohlc := [], lastSignal := none }

/-- The events whose handlers touch (or could touch) the module state. -/
inductive Op
  /-- a kline frame without the final flag: only a price tick is broadcast -/
  | tick (c : Candle)
  /-- a kline frame with the final flag: append, analyze, store the signal -/
  | closedCandle (c : Candle) (ts : ℤ)
  /-- a frame that fails to parse (logged and dropped) -/
  | malformedFrame
  /-- transport close or error: reconnect scheduled, no state change -/
  | reconnect
  /-- a new subscriber connection -/
  | wsConnect
  /-- GET /api/last-signal -/
  | getLastSignal
  /-- GET /api/ohlc -/
  | getOhlc
  /-- POST /push-ohlc -/
  | pushOhlc (body : PushBody Candle)

/-- The state transition of each handler in `index.js`. -/
def step (s : ServerState) : Op → ServerState
  | .tick _ => s
  | .closedCandle c ts =>
    let ohlc2 := appendCandle s.ohlc c
    { ohlc := ohlc2
      lastSignal := some { result := analyzeAndSignal ohlc2, symbol := "btcusdt", ts := ts } }
  | .malformedFrame => s
  | .reconnect => s
  | .wsConnect => s
  | .getLastSignal => s
  | .getOhlc => s
  | .pushOhlc body => { s with ohlc := (pushOhlcRoute s.ohlc body).2 }

/-- The body of the `/api/last-signal` response. -/
inductive LastSignalResp
  | sig (s : StoredSignal)
  | emptyObject
deriving DecidableEq

/-- `GET /api/last-signal`: the stored signal when present, `{}` otherwise. -/
def lastSignalRoute (s : ServerState) : LastSignalResp :=
  match s.lastSignal with
  | some sig => .sig sig
  | none => .emptyObject

/-- Whether an operation processes a closed candle. -/
def Op.isClosed : Op → Bool
  | .closedCandle _ _ => true
  | _ => false

/-! ## Concrete fixtures -/

/-- A closed candle whose close price is `c` (the analyzer only reads closes). -/
def mkC (c : ℚ) : Candle :=
  { t := 0, op := c, hi := c, lo := c, close := c, volume := 0, isFinal := true }

@[simp] theorem closes_map_mkC (l : List ℚ) :
    List.map Candle.close (List.map mkC l) = l := by
  induction l with
  | nil => rfl
  | cons a l ih => simp [mkC, ih]

/-- A 23-close prefix: a unit decline from 100 to 86 followed by a
1.35-per-step recovery; `emaShort` sits just below `emaLong` at the end. -/
def baseCloses : List ℚ :=
  [100, 99, 98, 97, 96, 95, 94, 93, 92, 91, 90, 89, 88, 87, 86,
   87.35, 88.7, 90.05, 91.4, 92.75, 94.1, 95.45, 96.8]

/-- Closes whose final RSI lies in `[44.5, 45)` while the EMAs cross up. -/
def cexCloses1 : List ℚ := baseCloses ++ [94.22]

/-- Closes producing a BUY with an EMA gap below `0.01`. -/
def cexCloses5 : List ℚ := baseCloses ++ [93.68]

/-- Closes producing a BUY with an EMA gap above `0.01`. -/
def witCloses5 : List ℚ := baseCloses ++ [93.78]

/-- A 16-value series for probing the RSI warm-up boundary. -/
def probe16 : List ℚ := [0, 1, 2, 3, 4, 5, 6, 7, 8, 9, 10, 11, 12, 13, 14, 15]

/-- A strictly increasing 20-value series. -/
def increasing20 : List ℚ :=
  [1, 2, 3, 4, 5, 6, 7, 8, 9, 10, 11, 12, 13, 14, 15, 16, 17, 18, 19, 20]

/-- A sample stored signal. -/
def sampleSig : StoredSignal :=
  { result := { signal := "HOLD", reason := "not enough data" }, symbol := "btcusdt", ts := 0 }

/-! ## C6: short series force HOLD "not enough data" -/

/-- C6: for every close-price series whose last index is at most 21 (the
EMA-long length), `analyzeAndSignal` returns HOLD with reason
"not enough data" (and no price/rsi fields, so the crossover and RSI
conditions are not consulted). -/
theorem C6_short_series_holds (arr : List Candle)
    (h : lastIdx (arr.map Candle.close) ≤ 21) :
    analyzeAndSignal arr = { signal := "HOLD", reason := "not enough data" } := by
  simp only [analyzeAndSignal]
  rw [if_pos h]

/-- Witness for C6 at a concrete 5-candle history. -/
theorem C6_short_series_holds_witness :
    lastIdx ((List.replicate 5 (mkC 1)).map Candle.close) ≤ 21 ∧
    analyzeAndSignal (List.replicate 5 (mkC 1)) =
      { signal := "HOLD", reason := "not enough data" } :=
  ⟨by simp [lastIdx], C6_short_series_holds _ (by simp [lastIdx])⟩

/-! ## C7: bulk overwrite -/

/-- C7: a non-array bulk-overwrite body is rejected with the 400 error and
leaves the history exactly unchanged; an array body replaces the history
by its newest (last) 500 elements. -/
theorem C7_push_ohlc_route (ohlc : List Candle) (body : PushBody Candle) :
    (body = .notArray → pushOhlcRoute ohlc body = (.badRequest "send array", ohlc)) ∧
    (∀ arr, body = .array arr →
      (pushOhlcRoute ohlc body).2 = arr.drop (arr.length - 500) ∧
      (pushOhlcRoute ohlc body).2 <:+ arr ∧
      (pushOhlcRoute ohlc body).2.length = min 500 arr.length ∧
      (pushOhlcRoute ohlc body).1 = .ok (pushOhlcRoute ohlc body).2.length) := by
  constructor
  · rintro rfl; rfl
  · rintro arr rfl
    refine ⟨rfl, List.drop_suffix _ _, ?_, rfl⟩
    simp only [pushOhlcRoute, List.length_drop]
    omega

/-- Witness for C7: both body shapes at concrete inputs. -/
theorem C7_push_ohlc_route_witness :
    pushOhlcRoute ([] : List Candle) .notArray = (.badRequest "send array", []) ∧
    (pushOhlcRoute ([] : List Candle) (.array [mkC 1])).2 = [mkC 1] := by
  refine ⟨(C7_push_ohlc_route [] .notArray).1 rfl, ?_⟩
  have h := ((C7_push_ohlc_route [] (.array [mkC 1])).2 [mkC 1] rfl).1
  simpa using h

/-! ## C9: subscriber catch-up ordering -/

/-- C9: a new subscriber first receives the last known signal (exactly when
one exists), then the connection-status event, and only afterwards any
later published events. -/
theorem C9_connection_catchup (ls : Option StoredSignal) (later : List WsMsg) :
    (∀ sig, ls = some sig →
      subscriberTrace ls later = WsMsg.signal sig :: WsMsg.status "connected" :: later) ∧
    (ls = none → subscriberTrace ls later = WsMsg.status "connected" :: later) := by
  constructor
  · rintro sig rfl; rfl
  · rintro rfl; rfl

/-- Witness for C9 at a concrete stored signal and a later price event. -/
theorem C9_connection_catchup_witness :
    subscriberTrace (some sampleSig) [WsMsg.price 1 2] =
      WsMsg.signal sampleSig :: WsMsg.status "connected" :: [WsMsg.price 1 2] :=
  (C9_connection_catchup _ _).1 sampleSig rfl

/-! ## C4: bounded FIFO history -/

theorem foldl_appendCandle_eq {α : Type} (cs : List α) : ∀ (h : List α),
    h.length ≤ 500 →
    List.foldl appendCandle h cs = (h ++ cs).drop (h.length + cs.length - 500) := by
  induction cs with
  | nil =>
    intro h hle
    have hz : h.length + ([] : List α).length - 500 = 0 := by simp; omega
    rw [List.append_nil, hz, List.drop_zero, List.foldl_nil]
  | cons c cs ih =>
    intro h hle
    rw [List.foldl_cons]
    by_cases hlen : 500 < (h ++ [c]).length
    · have h500 : h.length = 500 := by
        simp only [List.length_append, List.length_singleton] at hlen
        omega
      have happ : appendCandle h c = (h ++ [c]).drop 1 := by
        simp only [appendCandle, if_pos hlen]
      have hlen1 : ((h ++ [c]).drop 1).length ≤ 500 := by
        simp only [List.length_drop, List.length_append, List.length_singleton]
        omega
      rw [happ, ih _ hlen1]
      have e1 : ((h ++ [c]).drop 1) ++ cs = ((h ++ [c]) ++ cs).drop 1 :=
        (List.drop_append_of_le_length (by simp)).symm
      have e2 : ((h ++ [c]).drop 1).length + cs.length - 500 = cs.length := by
        simp only [List.length_drop, List.length_append, List.length_singleton, h500]
        omega
      rw [e1, e2, List.drop_drop]
      have e3 : h ++ [c] ++ cs = h ++ c :: cs := by simp
      have e4 : 1 + cs.length = h.length + (c :: cs).length - 500 := by
        simp only [List.length_cons, h500]
        omega
      rw [e3, e4]
    · have happ : appendCandle h c = h ++ [c] := by
        simp only [appendCandle, if_neg hlen]
      rw [happ, ih _ (Nat.not_lt.mp hlen)]
      have e3 : h ++ [c] ++ cs = h ++ c :: cs := by simp
      have e4 : (h ++ [c]).length + cs.length - 500 = h.length + (c :: cs).length - 500 := by
        simp only [List.length_append, List.length_singleton, List.length_cons, List.length_nil]
        omega
      rw [e3, e4]

/-- C4: the streamed history update keeps at most 500 candles, each append
evicts at most the single oldest entry, and 1000 sequential appends leave
exactly the newest 500 candles in arrival order. -/
theorem C4_bounded_fifo_history {α : Type} (cs h : List α) (c : α) :
    (List.foldl appendCandle ([] : List α) cs).length ≤ 500 ∧
    (appendCandle h c = h ++ [c] ∨ appendCandle h c = (h ++ [c]).drop 1) ∧
    (cs.length = 1000 →
      List.foldl appendCandle ([] : List α) cs = cs.drop 500 ∧
      (List.foldl appendCandle ([] : List α) cs).length = 500) := by
  have base := foldl_appendCandle_eq cs ([] : List α) (by simp)
  simp only [List.nil_append, List.length_nil, Nat.zero_add] at base
  refine ⟨?_, ?_, ?_⟩
  · rw [base]
    simp only [List.length_drop]
    omega
  · by_cases hlen : 500 < (h ++ [c]).length
    · exact Or.inr (by simp only [appendCandle, if_pos hlen])
    · exact Or.inl (by simp only [appendCandle, if_neg hlen])
  · intro h1000
    rw [base, h1000]
    refine ⟨by norm_num, ?_⟩
    simp only [List.length_drop, h1000]

/-- Witness for C4: 1000 appends of `0, 1, …, 999`. -/
theorem C4_bounded_fifo_history_witness :
    (List.range 1000).length = 1000 ∧
    List.foldl appendCandle ([] : List ℕ) (List.range 1000) = (List.range 1000).drop 500 :=
  ⟨by simp, ((C4_bounded_fifo_history (List.range 1000) [] 0).2.2 (by simp)).1⟩

/-! ## C10: the last-signal singleton never reverts to null -/

theorem step_lastSignal_isSome (s : ServerState) (op : Op)
    (h : s.lastSignal.isSome) : ((step s op).lastSignal).isSome := by
  cases op <;> simpa [step] using h

theorem foldl_step_lastSignal_isSome (ops : List Op) : ∀ (s : ServerState),
    s.lastSignal.isSome → ((List.foldl step s ops).lastSignal).isSome := by
  induction ops with
  | nil => intro s h; simpa using h
  | cons op ops ih =>
    intro s h
    exact ih _ (step_lastSignal_isSome s op h)

theorem foldl_step_closed_isSome (ops : List Op) : ∀ (s : ServerState),
    (∃ op ∈ ops, op.isClosed = true) →
    ((List.foldl step s ops).lastSignal).isSome := by
  induction ops with
  | nil => rintro s ⟨op, hmem, _⟩; simp at hmem
  | cons op ops ih =>
    rintro s ⟨op', hmem, hclosed⟩
    rw [List.foldl_cons]
    rcases List.mem_cons.mp hmem with rfl | hmem'
    · cases op' with
      | closedCandle c ts => exact foldl_step_lastSignal_isSome ops _ (by simp [step])
      | _ => simp [Op.isClosed] at hclosed
    · exact ih _ ⟨op', hmem', hclosed⟩

/-- C10: `lastSignal` starts as null, no handler ever resets it to null
once set, after any processed closed candle it is non-null forever, and
the `/api/last-signal` route answers `{}` exactly when it is still null. -/
theorem C10_last_signal_monotone :
    initState.lastSignal = none ∧
    (∀ (s : ServerState) (op : Op), s.lastSignal.isSome → ((step s op).lastSignal).isSome) ∧
    (∀ ops : List Op, (∃ op ∈ ops, op.isClosed = true) →
      ((List.foldl step initState ops).lastSignal).isSome ∧
      lastSignalRoute (List.foldl step initState ops) ≠ .emptyObject) ∧
    (∀ s : ServerState, lastSignalRoute s = .emptyObject ↔ s.lastSignal = none) := by
  refine ⟨rfl, step_lastSignal_isSome, ?_, ?_⟩
  · intro ops hops
    have hsome := foldl_step_closed_isSome ops initState hops
    refine ⟨hsome, ?_⟩
    rcases Option.isSome_iff_exists.mp hsome with ⟨sig, hsig⟩
    simp [lastSignalRoute, hsig]
  · intro s
    cases hs : s.lastSignal <;> simp [lastSignalRoute, hs]

/-- Witness for C10: a single processed closed candle makes the route
answer non-empty. -/
theorem C10_last_signal_monotone_witness :
    lastSignalRoute (List.foldl step initState [Op.closedCandle (mkC 1) 0]) ≠ .emptyObject :=
  ((C10_last_signal_monotone.2.2.1 [Op.closedCandle (mkC 1) 0]
    ⟨Op.closedCandle (mkC 1) 0, by simp, rfl⟩)).2

/-! ## C2: the EMA recurrence -/

theorem emaGo_length (k prev : ℚ) (l : List ℚ) : (emaGo k prev l).length = l.length := by
  induction l generalizing prev with
  | nil => rfl
  | cons v rest ih => simp [emaGo, ih]

theorem emaGo_isSome (k prev : ℚ) (l : List ℚ) : ∀ o ∈ emaGo k prev l, o.isSome := by
  induction l generalizing prev with
  | nil => intro o ho; simp [emaGo] at ho
  | cons v rest ih =>
    intro o ho
    simp only [emaGo] at ho
    rcases List.mem_cons.mp ho with rfl | h'
    · rfl
    · exact ih _ o h'

theorem emaGo_getD_zero (k prev v : ℚ) (rest : List ℚ) :
    (emaGo k prev (v :: rest)).getD 0 none = some (v * k + prev * (1 - k)) := rfl

theorem emaGo_getD_succ (k : ℚ) (l : List ℚ) : ∀ (prev : ℚ) (i : ℕ), i + 1 < l.length →
    ∀ p, (emaGo k prev l).getD i none = some p →
    (emaGo k prev l).getD (i + 1) none = some (l.getD (i + 1) 0 * k + p * (1 - k)) := by
  induction l with
  | nil => intro prev i hi; simp at hi
  | cons v rest ih =>
    intro prev i hi p hp
    cases i with
    | zero =>
      simp only [emaGo, List.getD_cons_zero] at hp
      cases rest with
      | nil => simp at hi
      | cons w rest' =>
        obtain rfl : v * k + prev * (1 - k) = p := by injection hp
        simp only [emaGo, List.getD_cons_succ, List.getD_cons_zero]
    | succ j =>
      simp only [emaGo, List.getD_cons_succ] at hp ⊢
      have hlt : j + 1 < rest.length := by
        simpa using hi
      exact ih _ j hlt p hp

/-- C2: for every non-empty series and every length, the EMA output has
the input's length, contains no null entries, starts at `series[0]`, and
satisfies `out[i] = series[i]*k + out[i-1]*(1-k)` with `k = 2/(length+1)`. -/
theorem C2_ema_recurrence (values : List ℚ) (L : ℕ) (hne : values ≠ []) :
    (ema values L).length = values.length ∧
    (∀ o ∈ ema values L, o.isSome) ∧
    (ema values L).getD 0 none = some (values.getD 0 0) ∧
    (∀ i, 1 ≤ i → i < values.length → ∀ p,
      (ema values L).getD (i - 1) none = some p →
      (ema values L).getD i none =
        some (values.getD i 0 * (2 / (L + 1)) + p * (1 - 2 / (L + 1)))) := by
  match values, hne with
  | v :: rest, _ =>
    refine ⟨?_, ?_, rfl, ?_⟩
    · simp [ema, emaGo_length]
    · intro o ho
      simp only [ema] at ho
      rcases List.mem_cons.mp ho with rfl | h'
      · rfl
      · exact emaGo_isSome _ _ _ o h'
    · intro i h1 hlen p hp
      cases i with
      | zero => omega
      | succ j =>
        cases j with
        | zero =>
          simp only [ema, Nat.sub_self, List.getD_cons_zero] at hp
          obtain rfl : v = p := by injection hp
          cases rest with
          | nil => simp at hlen
          | cons w rest' =>
            simp only [ema, List.getD_cons_succ, List.getD_cons_zero]
            rfl
        | succ j' =>
          simp only [ema, Nat.succ_sub_one, List.getD_cons_succ] at hp ⊢
          have hlt : j' + 1 < rest.length := by
            simpa using hlen
          exact emaGo_getD_succ (2 / (L + 1)) rest v j' hlt p hp

/-- Witness for C2 at the series `[1, 2, 3]` with length 9. -/
theorem C2_ema_recurrence_witness :
    ([(1 : ℚ), 2, 3] ≠ []) ∧ (ema [(1 : ℚ), 2, 3] 9).length = [(1 : ℚ), 2, 3].length :=
  ⟨by simp, (C2_ema_recurrence [(1 : ℚ), 2, 3] 9 (by simp)).1⟩

/-! ## RSI structure lemmas -/

theorem getD_replicate_of_lt {α : Type} (n i : ℕ) (a d : α) (h : i < n) :
    (List.replicate n a).getD i d = a := by
  induction n generalizing i with
  | zero => omega
  | succ m ih =>
    cases i with
    | zero => rfl
    | succ j =>
      rw [List.replicate_succ, List.getD_cons_succ]
      exact ih j (by omega)

theorem deltasOf_length (l : List ℚ) : (deltasOf l).length = l.length - 1 := by
  induction l with
  | nil => rfl
  | cons a rest ih =>
    cases rest with
    | nil => rfl
    | cons b rest' =>
      simp only [deltasOf, List.length_cons] at ih ⊢
      omega

theorem rsiLoop_length (p : ℚ) (ds : List ℚ) : ∀ (a b : ℚ),
    (rsiLoop p a b ds).length = ds.length := by
  induction ds with
  | nil => intro a b; rfl
  | cons d rest ih => intro a b; simp [rsiLoop, ih]

/-- The average gain/loss pair after Wilder smoothing over a list of
deltas, as the specification phrases it:
`avgGain = (avgGain*(period-1) + gain)/period`, symmetrically for losses. -/
def wilderAvgs (period : ℚ) (s : ℚ × ℚ) : List ℚ → ℚ × ℚ
  | [] => s
  | d :: rest =>
    wilderAvgs period
      ((s.1 * (period - 1) + (if d > 0 then d else 0)) / period,
       (s.2 * (period - 1) + (if d < 0 then -d else 0)) / period) rest

theorem wilderAvgs_append (p : ℚ) (l₁ l₂ : List ℚ) : ∀ (s : ℚ × ℚ),
    wilderAvgs p s (l₁ ++ l₂) = wilderAvgs p (wilderAvgs p s l₁) l₂ := by
  induction l₁ with
  | nil => intro s; rfl
  | cons d rest ih =>
    intro s
    simp only [List.cons_append, wilderAvgs, List.append_eq]
    exact ih _

theorem rsiLoop_getD (p : ℚ) (ds : List ℚ) : ∀ (a b : ℚ) (j : ℕ), j < ds.length →
    (rsiLoop p a b ds).getD j none =
      some (rsiValue (wilderAvgs p (a, b) (ds.take (j + 1))).1
        (wilderAvgs p (a, b) (ds.take (j + 1))).2) := by
  induction ds with
  | nil => intro a b j hj; simp at hj
  | cons d rest ih =>
    intro a b j hj
    cases j with
    | zero =>
      simp only [rsiLoop, List.getD_cons_zero, List.take_succ_cons, List.take_zero]
      rfl
    | succ j' =>
      simp only [rsiLoop, List.getD_cons_succ, List.take_succ_cons]
      rw [ih _ _ j' (by simpa using hj)]
      rfl

/-- The seed average gain of `rsi`: the simple mean of the gains over the
first `period` first-differences. -/
def seedAvgGain (values : List ℚ) (period : ℕ) : ℚ :=
  (((deltasOf values).take period).map (fun d => if d ≥ 0 then d else 0)).sum / (period : ℚ)

/-- The seed average loss of `rsi`: the simple mean of the losses over the
first `period` first-differences. -/
def seedAvgLoss (values : List ℚ) (period : ℕ) : ℚ :=
  (((deltasOf values).take period).map (fun d => if d ≥ 0 then 0 else -d)).sum / (period : ℚ)

theorem rsi_unfold (values : List ℚ) (period : ℕ) (h : period < values.length) :
    rsi values period =
      List.replicate period none ++
        (some (rsiValue (seedAvgGain values period) (seedAvgLoss values period)) ::
          rsiLoop period (seedAvgGain values period) (seedAvgLoss values period)
            ((deltasOf values).drop period)) := by
  rw [rsi, if_neg (by omega)]
  rfl

theorem rsi_length (values : List ℚ) (period : ℕ) :
    (rsi values period).length = values.length := by
  by_cases h : values.length ≤ period
  · simp [rsi, h]
  · rw [rsi_unfold values period (by omega)]
    simp only [List.length_append, List.length_replicate, List.length_cons,
      rsiLoop_length, List.length_drop, deltasOf_length]
    omega

theorem rsi_getD_lt (values : List ℚ) (period : ℕ) (h : period < values.length)
    (i : ℕ) (hi : i < period) : (rsi values period).getD i none = none := by
  rw [rsi_unfold values period h,
    List.getD_append _ _ _ i (by simpa [List.length_replicate] using hi)]
  exact getD_replicate_of_lt period i none none hi

theorem rsi_getD_at_period (values : List ℚ) (period : ℕ) (h : period < values.length) :
    (rsi values period).getD period none =
      some (rsiValue (seedAvgGain values period) (seedAvgLoss values period)) := by
  rw [rsi_unfold values period h,
    List.getD_append_right _ _ _ _ (by simp [List.length_replicate])]
  simp

theorem rsi_getD_after (values : List ℚ) (period : ℕ) (h : period < values.length)
    (j : ℕ) (hj : period + (j + 1) < values.length) :
    (rsi values period).getD (period + (j + 1)) none =
      some (rsiValue
        (wilderAvgs period (seedAvgGain values period, seedAvgLoss values period)
          (((deltasOf values).drop period).take (j + 1))).1
        (wilderAvgs period (seedAvgGain values period, seedAvgLoss values period)
          (((deltasOf values).drop period).take (j + 1))).2) := by
  rw [rsi_unfold values period h,
    List.getD_append_right _ _ _ _ (by simp [List.length_replicate])]
  have hidx : period + (j + 1) - (List.replicate period (none : Option ℚ)).length = j + 1 := by
    simp [List.length_replicate]
  rw [hidx, List.getD_cons_succ]
  exact rsiLoop_getD _ _ _ _ j (by simp only [List.length_drop, deltasOf_length]; omega)

/-! ## C3: the RSI definition -/

/-- C3 counterexample: `rsi` over a 16-value series is defined, not null,
at index `period = 14`, refuting "undefined at every index ≤ period". -/
theorem C3_rsi_wilder_cex :
    14 < probe16.length ∧ (rsi probe16 14).getD 14 none ≠ none := by
  constructor
  · norm_num [probe16]
  · rw [rsi_getD_at_period probe16 14 (by norm_num [probe16])]
    simp

/-- C3 (amended): for every series longer than `period = 14`, `rsi` keeps
the length, is null exactly at indices below `period`, equals the epsilon-
guarded formula of the seed simple means at index `period`, and at every
later index equals the same formula applied to the Wilder-smoothed
averages, whose step recurrence is
`avg' = (avg*(period-1) + gain)/period` (symmetrically for losses). -/
theorem C3_rsi_wilder (values : List ℚ) (h14 : 14 < values.length) :
    (rsi values 14).length = values.length ∧
    (∀ i < 14, (rsi values 14).getD i none = none) ∧
    ((rsi values 14).getD 14 none =
      some (100 - 100 / (1 + seedAvgGain values 14 /
        (if seedAvgLoss values 14 = 0 then 1e-8 else seedAvgLoss values 14)))) ∧
    (∀ j, 14 + (j + 1) < values.length →
      (rsi values 14).getD (14 + (j + 1)) none =
        some (100 - 100 / (1 +
          (wilderAvgs 14 (seedAvgGain values 14, seedAvgLoss values 14)
            (((deltasOf values).drop 14).take (j + 1))).1 /
          (if (wilderAvgs 14 (seedAvgGain values 14, seedAvgLoss values 14)
            (((deltasOf values).drop 14).take (j + 1))).2 = 0 then 1e-8 else
            (wilderAvgs 14 (seedAvgGain values 14, seedAvgLoss values 14)
              (((deltasOf values).drop 14).take (j + 1))).2)))) ∧
    (∀ (l : List ℚ) (d : ℚ),
      wilderAvgs 14 (seedAvgGain values 14, seedAvgLoss values 14) (l ++ [d]) =
        (((wilderAvgs 14 (seedAvgGain values 14, seedAvgLoss values 14) l).1 * (14 - 1) +
            (if d > 0 then d else 0)) / 14,
         ((wilderAvgs 14 (seedAvgGain values 14, seedAvgLoss values 14) l).2 * (14 - 1) +
            (if d < 0 then -d else 0)) / 14)) := by
  refine ⟨rsi_length values 14, rsi_getD_lt values 14 h14, ?_, ?_, ?_⟩
  · rw [rsi_getD_at_period values 14 h14]
    simp [rsiValue, lossDen]
  · intro j hj
    rw [rsi_getD_after values 14 h14 j hj]
    simp [rsiValue, lossDen]
  · intro l d
    rw [wilderAvgs_append]
    rfl

/-- Witness for C3 at the concrete 16-value series. -/
theorem C3_rsi_wilder_witness :
    14 < probe16.length ∧ (rsi probe16 14).length = probe16.length :=
  ⟨by norm_num [probe16], (C3_rsi_wilder probe16 (by norm_num [probe16])).1⟩

/-! ## C8: RSI over a strictly increasing series -/

theorem chain'_deltasOf_pos (values : List ℚ) (h : List.Chain' (· < ·) values) :
    ∀ d ∈ deltasOf values, 0 < d := by
  induction values with
  | nil => intro d hd; simp [deltasOf] at hd
  | cons a rest ih =>
    cases rest with
    | nil => intro d hd; simp [deltasOf] at hd
    | cons b rest' =>
      rw [List.chain'_cons] at h
      intro d hd
      rcases List.mem_cons.mp hd with rfl | hd'
      · linarith [h.1]
      · exact ih h.2 d hd'

theorem rsiValue_pos_lt_100 (aG : ℚ) (hG : 0 < aG) :
    0 < rsiValue aG 0 ∧ rsiValue aG 0 < 100 := by
  unfold rsiValue lossDen
  rw [if_pos rfl]
  have heps : (0 : ℚ) < 1e-8 := by norm_num
  have hq : (0 : ℚ) < aG / 1e-8 := div_pos hG heps
  constructor
  · have h1 : 100 / (1 + aG / 1e-8) < 100 := div_lt_self (by norm_num) (by linarith)
    linarith
  · have h2 : (0 : ℚ) < 100 / (1 + aG / 1e-8) := div_pos (by norm_num) (by linarith)
    linarith

theorem rsiLoop_pos_lt_100 (ds : List ℚ) : ∀ (aG : ℚ), (∀ d ∈ ds, 0 < d) → 0 < aG →
    ∀ j < ds.length, ∃ v, (rsiLoop 14 aG 0 ds).getD j none = some v ∧ 0 < v ∧ v < 100 := by
  induction ds with
  | nil => intro aG _ _ j hj; simp at hj
  | cons d rest ih =>
    intro aG hpos haG j hj
    have hd : 0 < d := hpos d (by simp)
    have hg : (if d > 0 then d else 0) = d := if_pos hd
    have hl : (if d < 0 then -d else 0) = 0 := if_neg (not_lt.mpr (le_of_lt hd))
    have haL : ((0 : ℚ) * (14 - 1) + 0) / 14 = 0 := by norm_num
    have haG' : 0 < (aG * (14 - 1) + d) / 14 := by
      have : (0 : ℚ) < aG * (14 - 1) := by
        have : (0 : ℚ) < (14 : ℚ) - 1 := by norm_num
        positivity
      have hnum : (0 : ℚ) < aG * (14 - 1) + d := by linarith
      exact div_pos hnum (by norm_num)
    cases j with
    | zero =>
      refine ⟨rsiValue ((aG * (14 - 1) + d) / 14) 0, ?_, rsiValue_pos_lt_100 _ haG'⟩
      simp only [rsiLoop, List.getD_cons_zero, hg, hl, haL]
    | succ j' =>
      simp only [rsiLoop, List.getD_cons_succ, hg, hl, haL]
      exact ih _ (fun x hx => hpos x (by simp [hx])) haG' j' (by simpa using hj)

theorem seedAvgLoss_eq_zero_of_pos (values : List ℚ)
    (hdpos : ∀ d ∈ deltasOf values, 0 < d) : seedAvgLoss values 14 = 0 := by
  unfold seedAvgLoss
  have hsum : (((deltasOf values).take 14).map (fun d => if d ≥ 0 then 0 else -d)).sum = 0 := by
    apply List.sum_eq_zero
    intro x hx
    rcases List.mem_map.mp hx with ⟨d, hd, rfl⟩
    have : 0 < d := hdpos d (List.mem_of_mem_take hd)
    rw [if_pos (le_of_lt this)]
  rw [hsum, zero_div]

theorem seedAvgGain_pos_of_pos (values : List ℚ) (h14 : 14 < values.length)
    (hdpos : ∀ d ∈ deltasOf values, 0 < d) : 0 < seedAvgGain values 14 := by
  unfold seedAvgGain
  have hne : ((deltasOf values).take 14).map (fun d => if d ≥ 0 then d else 0) ≠ [] := by
    have hlen : ((deltasOf values).take 14).length = 14 := by
      rw [List.length_take, deltasOf_length]
      omega
    intro hcon
    have hmap := congrArg List.length hcon
    rw [List.length_map, hlen] at hmap
    norm_num at hmap
  have hall : ∀ x ∈ ((deltasOf values).take 14).map (fun d => if d ≥ 0 then d else 0), 0 < x := by
    intro x hx
    rcases List.mem_map.mp hx with ⟨d, hd, rfl⟩
    have hdp : 0 < d := hdpos d (List.mem_of_mem_take hd)
    rw [if_pos (le_of_lt hdp)]
    exact hdp
  exact div_pos (List.sum_pos _ hall hne) (by norm_num)

/-- C8 counterexample: over the strictly increasing series `1..20`, RSI is
defined (non-null) already at index 14, and its value at index 15 is not
exactly 100. -/
theorem C8_increasing_cex :
    List.Chain' (· < ·) increasing20 ∧
    (rsi increasing20 14).getD 14 none ≠ none ∧
    (rsi increasing20 14).getD 15 none ≠ some 100 := by
  refine ⟨by norm_num [increasing20], ?_, ?_⟩
  · rw [rsi_getD_at_period increasing20 14 (by norm_num [increasing20])]
    simp
  · norm_num [rsi, rsiLoop, rsiValue, lossDen, deltasOf, increasing20,
      seedAvgGain, seedAvgLoss, List.replicate]

/-- C8 (amended): RSI(14) over every strictly increasing series of 20
values is null exactly at indices below 14 and strictly between 0 and 100
(never exactly 100) at every defined index 14..19. -/
theorem C8_increasing_rsi (values : List ℚ) (hlen : values.length = 20)
    (hmono : List.Chain' (· < ·) values) :
    (∀ i < 14, (rsi values 14).getD i none = none) ∧
    (∀ i, 14 ≤ i → i < 20 → ∃ v, (rsi values 14).getD i none = some v ∧ 0 < v ∧ v < 100) := by
  have h14 : 14 < values.length := by omega
  have hdpos : ∀ d ∈ deltasOf values, 0 < d := chain'_deltasOf_pos values hmono
  have hG : 0 < seedAvgGain values 14 := seedAvgGain_pos_of_pos values h14 hdpos
  have hL : seedAvgLoss values 14 = 0 := seedAvgLoss_eq_zero_of_pos values hdpos
  refine ⟨fun i hi => rsi_getD_lt values 14 h14 i hi, ?_⟩
  intro i h14le hi20
  by_cases hi : i = 14
  · subst hi
    refine ⟨rsiValue (seedAvgGain values 14) (seedAvgLoss values 14),
      rsi_getD_at_period values 14 h14, ?_⟩
    rw [hL]
    exact rsiValue_pos_lt_100 _ hG
  · obtain ⟨j, rfl⟩ : ∃ j, i = 14 + (j + 1) := ⟨i - 15, by omega⟩
    rw [rsi_unfold values 14 h14,
      List.getD_append_right _ _ _ _ (by simp [List.length_replicate])]
    have hidx : 14 + (j + 1) - (List.replicate 14 (none : Option ℚ)).length = j + 1 := by
      simp [List.length_replicate]
    rw [hidx, List.getD_cons_succ, hL]
    apply rsiLoop_pos_lt_100
    · exact fun x hx => hdpos x (List.mem_of_mem_drop hx)
    · exact hG
    · simp only [List.length_drop, deltasOf_length]
      omega

/-- Witness for C8 at the series `1..20`. -/
theorem C8_increasing_rsi_witness :
    increasing20.length = 20 ∧ (rsi increasing20 14).getD 0 none = none :=
  ⟨by norm_num [increasing20],
    (C8_increasing_rsi increasing20 (by norm_num [increasing20])
      (by norm_num [increasing20])).1 0 (by norm_num)⟩

/-! ## C1: the decision rule uses the rounded RSI -/

theorem crossedUp_crossedDown_exclusive (closes : List ℚ)
    (hup : crossedUpAt closes = true) (hdown : crossedDownAt closes = true) : False := by
  simp only [crossedUpAt, crossedDownAt, Bool.and_eq_true, decide_eq_true_eq] at hup hdown
  linarith [hup.2, hdown.2]

set_option maxHeartbeats 4000000 in
/-- C1 counterexample: on `cexCloses1` the last index exceeds 21, the EMAs
cross up, and the RSI value at the last index is below 45 (it lies in
`[44.5, 45)`), yet the decision is HOLD, not BUY, because the code rounds
the RSI before comparing. -/
theorem C1_decision_iff_cex :
    21 < lastIdx cexCloses1 ∧
    crossedUpAt cexCloses1 = true ∧
    (44.5 : ℚ) ≤ ((rsi cexCloses1 14).getD 23 none).getD 0 ∧
    ((rsi cexCloses1 14).getD 23 none).getD 0 < 45 ∧
    (analyzeAndSignal (cexCloses1.map mkC)).signal = "HOLD" := by
  refine ⟨by norm_num [lastIdx, cexCloses1, baseCloses], ?_, ?_, ?_, ?_⟩
  · norm_num [crossedUpAt, lastIdx, jsNum, ema, emaGo, cexCloses1, baseCloses]
  · norm_num [rsi, rsiLoop, rsiValue, lossDen, deltasOf, cexCloses1, baseCloses,
      List.replicate]
  · norm_num [rsi, rsiLoop, rsiValue, lossDen, deltasOf, cexCloses1, baseCloses,
      List.replicate]
  · norm_num [analyzeAndSignal, crossedUpAt, crossedDownAt, rAt, roundJS, gapAt,
      lastIdx, jsNum, ema, emaGo, rsi, rsiLoop, rsiValue, lossDen, deltasOf,
      cexCloses1, baseCloses, List.replicate, mkC]

/-- C1 (amended): for every close series with last index above 21, the
decision is BUY iff the EMAs crossed up and the ROUNDED RSI `r` satisfies
`r < 45`, SELL iff they crossed down and `r > 65`, and otherwise HOLD with
a reason citing the rounded RSI. -/
theorem C1_decision_iff (arr : List Candle)
    (h : 21 < lastIdx (arr.map Candle.close)) :
    ((analyzeAndSignal arr).signal = "BUY" ↔
      crossedUpAt (arr.map Candle.close) = true ∧ rAt (arr.map Candle.close) < 45) ∧
    ((analyzeAndSignal arr).signal = "SELL" ↔
      crossedDownAt (arr.map Candle.close) = true ∧ 65 < rAt (arr.map Candle.close)) ∧
    ((¬(crossedUpAt (arr.map Candle.close) = true ∧ rAt (arr.map Candle.close) < 45) ∧
      ¬(crossedDownAt (arr.map Candle.close) = true ∧ 65 < rAt (arr.map Candle.close))) →
      (analyzeAndSignal arr).signal = "HOLD" ∧
      (analyzeAndSignal arr).reason =
        "No crossover (RSI " ++ toString (rAt (arr.map Candle.close)) ++ ")" ∧
      (analyzeAndSignal arr).rsi = some (rAt (arr.map Candle.close))) := by
  simp only [analyzeAndSignal]
  rw [if_neg (by omega)]
  by_cases hbuy : crossedUpAt (arr.map Candle.close) && decide (rAt (arr.map Candle.close) < 45)
  · rw [if_pos hbuy]
    simp only [Bool.and_eq_true, decide_eq_true_eq] at hbuy
    refine ⟨⟨fun _ => hbuy, fun _ => rfl⟩, ?_, ?_⟩
    · constructor
      · intro h'
        exact absurd h' (by simp)
      · rintro ⟨hdown, _⟩
        exact (crossedUp_crossedDown_exclusive _ hbuy.1 hdown).elim
    · rintro ⟨hnbuy, _⟩
      exact absurd hbuy hnbuy
  · rw [if_neg hbuy]
    by_cases hsell : crossedDownAt (arr.map Candle.close) && decide (rAt (arr.map Candle.close) > 65)
    · rw [if_pos hsell]
      simp only [Bool.and_eq_true, decide_eq_true_eq] at hbuy hsell
      refine ⟨?_, ⟨fun _ => hsell, fun _ => rfl⟩, ?_⟩
      · constructor
        · intro h'
          exact absurd h' (by simp)
        · intro hb
          exact absurd hb hbuy
      · rintro ⟨_, hnsell⟩
        exact absurd hsell hnsell
    · rw [if_neg hsell]
      simp only [Bool.and_eq_true, decide_eq_true_eq] at hbuy hsell
      refine ⟨?_, ?_, fun _ => ⟨rfl, rfl, rfl⟩⟩
      · constructor
        · intro h'
          exact absurd h' (by simp)
        · intro hb
          exact absurd hb hbuy
      · constructor
        · intro h'
          exact absurd h' (by simp)
        · intro hs
          exact absurd hs hsell

/-- Witness for C1 at a constant 23-candle history. -/
theorem C1_decision_iff_witness :
    21 < lastIdx ((List.replicate 23 (mkC 1)).map Candle.close) ∧
    ((analyzeAndSignal (List.replicate 23 (mkC 1))).signal = "BUY" ↔
      crossedUpAt ((List.replicate 23 (mkC 1)).map Candle.close) = true ∧
      rAt ((List.replicate 23 (mkC 1)).map Candle.close) < 45) :=
  ⟨by simp [lastIdx], (C1_decision_iff (List.replicate 23 (mkC 1)) (by simp [lastIdx])).1⟩

/-! ## C5: BUY trade fields are rounded to two decimals -/

theorem round2_le_add (x : ℚ) : round2 x ≤ x + 1 / 200 := by
  unfold round2
  have h := Int.floor_le (x * 100 + 1 / 2)
  rw [div_le_iff (by norm_num : (0 : ℚ) < 100)]
  linarith

theorem lt_round2_add (x : ℚ) : x - 1 / 200 < round2 x := by
  unfold round2
  have h := Int.lt_floor_add_one (x * 100 + 1 / 2)
  rw [lt_div_iff (by norm_num : (0 : ℚ) < 100)]
  linarith

theorem round2_mono {x y : ℚ} (h : x ≤ y) : round2 x ≤ round2 y := by
  unfold round2
  have hf : ⌊x * 100 + 1 / 2⌋ ≤ ⌊y * 100 + 1 / 2⌋ :=
    Int.floor_le_floor (by linarith)
  have hq : ((⌊x * 100 + 1 / 2⌋ : ℤ) : ℚ) ≤ ((⌊y * 100 + 1 / 2⌋ : ℤ) : ℚ) := by
    exact_mod_cast hf
  linarith

/-- C5 counterexample: on `cexCloses5` the analyzer returns BUY with
`stopLoss = takeProfit = entry = 93.68` (two-decimal rounding collapses
the tiny EMA gap), refuting both `stopLoss = entry - 0.5*gap` and the
strict bracketing `stopLoss < entry < takeProfit`. -/
theorem C5_buy_fields_cex :
    (analyzeAndSignal (cexCloses5.map mkC)).signal = "BUY" ∧
    (analyzeAndSignal (cexCloses5.map mkC)).entry = some 93.68 ∧
    (analyzeAndSignal (cexCloses5.map mkC)).stopLoss = some 93.68 ∧
    (analyzeAndSignal (cexCloses5.map mkC)).takeProfit = some 93.68 ∧
    0 < gapAt cexCloses5 ∧
    (93.68 : ℚ) - 0.5 * gapAt cexCloses5 ≠ 93.68 := by
  have key : analyzeAndSignal (cexCloses5.map mkC) =
      { signal := "BUY"
        reason := "EMA up cross + RSI " ++ toString (43 : ℤ)
        entry := some 93.68
        stopLoss := some 93.68
        takeProfit := some 93.68
        confidence := some 0.62
        price := some 93.68
        rsi := some 43 } := by
    norm_num [analyzeAndSignal, crossedUpAt, crossedDownAt, rAt, roundJS, gapAt,
      priceAt, lastIdx, jsNum, ema, emaGo, rsi, rsiLoop, rsiValue, lossDen,
      deltasOf, cexCloses5, baseCloses, List.replicate, mkC, round2, abs_of_nonneg]
  refine ⟨by rw [key], by rw [key], by rw [key], by rw [key], ?_, ?_⟩
  · norm_num [gapAt, jsNum, ema, emaGo, lastIdx, cexCloses5, baseCloses, abs_of_nonneg]
  · norm_num [gapAt, jsNum, ema, emaGo, lastIdx, cexCloses5, baseCloses, abs_of_nonneg]

/-- C5 (amended): every BUY decision has `entry` equal to the last close,
`stopLoss`/`takeProfit` equal to `entry - 0.5*gap` and `entry + 1.5*gap`
ROUNDED to two decimals, confidence built from the ROUNDED RSI and capped
at 0.95, and the strict bracketing `stopLoss < entry < takeProfit` holds
whenever `gap > 0.01`. -/
theorem C5_buy_fields (arr : List Candle)
    (h : 21 < lastIdx (arr.map Candle.close))
    (hup : crossedUpAt (arr.map Candle.close) = true)
    (hr : rAt (arr.map Candle.close) < 45) :
    (analyzeAndSignal arr).signal = "BUY" ∧
    (analyzeAndSignal arr).entry = some (priceAt (arr.map Candle.close)) ∧
    (analyzeAndSignal arr).stopLoss =
      some (round2 (priceAt (arr.map Candle.close) - 0.5 * gapAt (arr.map Candle.close))) ∧
    (analyzeAndSignal arr).takeProfit =
      some (round2 (priceAt (arr.map Candle.close) + 1.5 * gapAt (arr.map Candle.close))) ∧
    (analyzeAndSignal arr).confidence =
      some (round2 (min 0.95 (0.6 + ((45 : ℚ) - (rAt (arr.map Candle.close) : ℚ)) / 100))) ∧
    (∀ c, (analyzeAndSignal arr).confidence = some c → c ≤ 0.95) ∧
    (1 / 100 < gapAt (arr.map Candle.close) →
      round2 (priceAt (arr.map Candle.close) - 0.5 * gapAt (arr.map Candle.close)) <
        priceAt (arr.map Candle.close) ∧
      priceAt (arr.map Candle.close) <
        round2 (priceAt (arr.map Candle.close) + 1.5 * gapAt (arr.map Candle.close))) := by
  have hbuy : (crossedUpAt (arr.map Candle.close) &&
      decide (rAt (arr.map Candle.close) < 45)) = true := by
    rw [hup, decide_eq_true hr]
    rfl
  simp only [analyzeAndSignal]
  rw [if_neg (by omega), if_pos hbuy]
  refine ⟨rfl, rfl, rfl, rfl, rfl, ?_, ?_⟩
  · intro c hc
    obtain rfl : round2 (min 0.95 (0.6 + ((45 : ℚ) -
        (rAt (arr.map Candle.close) : ℚ)) / 100)) = c := by injection hc
    calc round2 (min 0.95 (0.6 + ((45 : ℚ) - (rAt (arr.map Candle.close) : ℚ)) / 100))
        ≤ round2 0.95 := round2_mono (min_le_left _ _)
      _ = 0.95 := by norm_num [round2]
  · intro hgap
    constructor
    · have h1 := round2_le_add
        (priceAt (arr.map Candle.close) - 0.5 * gapAt (arr.map Candle.close))
      linarith
    · have h2 := lt_round2_add
        (priceAt (arr.map Candle.close) + 1.5 * gapAt (arr.map Candle.close))
      linarith

/-- Witness for C5 at `witCloses5`, whose EMA gap exceeds 0.01, so the
strict bracketing holds. -/
theorem C5_buy_fields_witness :
    crossedUpAt witCloses5 = true ∧ rAt witCloses5 < 45 ∧
    (1 / 100 : ℚ) < gapAt witCloses5 ∧
    (analyzeAndSignal (witCloses5.map mkC)).signal = "BUY" ∧
    round2 (priceAt witCloses5 - 0.5 * gapAt witCloses5) < priceAt witCloses5 ∧
    priceAt witCloses5 < round2 (priceAt witCloses5 + 1.5 * gapAt witCloses5) := by
  have h21 : 21 < lastIdx (List.map Candle.close (witCloses5.map mkC)) := by
    rw [closes_map_mkC]
    norm_num [lastIdx, witCloses5, baseCloses]
  have hup : crossedUpAt (List.map Candle.close (witCloses5.map mkC)) = true := by
    rw [closes_map_mkC]
    norm_num [crossedUpAt, lastIdx, jsNum, ema, emaGo, witCloses5, baseCloses]
  have hr : rAt (List.map Candle.close (witCloses5.map mkC)) < 45 := by
    rw [closes_map_mkC]
    norm_num [rAt, roundJS, lastIdx, rsi, rsiLoop, rsiValue, lossDen, deltasOf,
      witCloses5, baseCloses, List.replicate]
  have hgap : (1 / 100 : ℚ) < gapAt (List.map Candle.close (witCloses5.map mkC)) := by
    rw [closes_map_mkC]
    norm_num [gapAt, jsNum, ema, emaGo, lastIdx, witCloses5, baseCloses, abs_of_nonneg]
  have main := C5_buy_fields (witCloses5.map mkC) h21 hup hr
  rw [closes_map_mkC] at main hup hr hgap
  exact ⟨hup, hr, hgap, main.1, (main.2.2.2.2.2.2 hgap).1, (main.2.2.2.2.2.2 hgap).2⟩

end TradingBackend
